import Mathlib

/-!
Verification of the slot-reel per-reel angular state machine and motion
controller, shallowly embedded from `src/index.ts` (class `SlotReel`).
Reals model JS numbers; the per-frame callback is modelled as an explicit
state-transformation function on a per-reel record, and the orchestration
methods (`startNextSpin`, `finalizeSpin`, the stop-scheduling timers) as
functions on an orchestrator state record.
-/

namespace SlotReel

open Real

/-- The three reel/global statuses, `SlotReel.STATES` in the source
(`'rest' | 'spinning' | 'stopping'`). -/
inductive Status
  | rest
  | spinning
  | stopping
deriving DecidableEq, Repr

/-- Per-reel state: `CylinderState` from the source (`currentSpeed`,
`targetAngle : number | null`, `status`) together with the reel mesh's
rotation `cylinder.rotation.x`, which the source keeps on the Three.js
mesh and mutates in lockstep with the state. -/
structure CylinderState where
  currentAngle : ℝ
  currentSpeed : ℝ
  targetAngle : Option ℝ
  status : Status

/-- Idle-wobble amplitude, the field `amplitude = 0.1` of `SlotReel`. -/
noncomputable def amplitude : ℝ := 0.1

/-- Idle-wobble frequency, the field `frequency = 1.25` of `SlotReel`. -/
noncomputable def frequency : ℝ := 1.25

/-- Idle-wobble ease-in duration, the field `wobbleEaseDuration = 1`. -/
noncomputable def wobbleEaseDuration : ℝ := 1

/-- `getSegmentAngle(segment)` from the source, with the instance option
`cylinderSegments` (the number of symbols per reel) passed explicitly:
`segmentAngle = 2π / cylinderSegments`, `offset = segmentAngle / 2`,
result `2π − ((segment − 1) · segmentAngle + offset)`. -/
noncomputable def getSegmentAngle (cylinderSegments segment : ℕ) : ℝ :=
  2 * π - (((segment : ℝ) - 1) * (2 * π / cylinderSegments) + 2 * π / cylinderSegments / 2)

/-- The target angle assigned by the staggered stop-scheduling timer inside
`startNextSpin`: `getSegmentAngle(segment)` plus
`(⌊currentAngle / 2π⌋ + 2)` full rotations of `2π`. -/
noncomputable def scheduleTargetAngle (cylinderSegments segment : ℕ) (currentAngle : ℝ) : ℝ :=
  getSegmentAngle cylinderSegments segment +
    ((⌊currentAngle / (2 * π)⌋ : ℝ) + 2) * (2 * π)

/-- One per-reel update of the `animate` frame callback (the `switch` on
`state.status`): spinning reels advance by `currentSpeed * deltaTime`;
stopping reels with a non-null target snap to it when `|diff| < 0.0001`
and otherwise advance by `sign(diff) * currentSpeed * min(1, |diff|/2π) * deltaTime`;
resting reels wobble around `restAngles[i]` while the global state is rest. -/
noncomputable def animateReel (currentGlobalState : Status)
    (restAngle phaseOffset wobbleStartTime currentTime deltaTime : ℝ)
    (cs : CylinderState) : CylinderState :=
  match cs.status with
  | Status.spinning =>
      { cs with currentAngle := cs.currentAngle + cs.currentSpeed * deltaTime }
  | Status.stopping =>
      match cs.targetAngle with
      | none => cs
      | some target =>
          let diff := target - cs.currentAngle
          if |diff| < 0.0001 then
            { cs with currentAngle := target, status := Status.rest }
          else
            let decelerationFactor := min 1 (|diff| / (2 * π))
            let speed := cs.currentSpeed * decelerationFactor
            { cs with currentAngle := cs.currentAngle + Real.sign diff * speed * deltaTime }
  | Status.rest =>
      if currentGlobalState = Status.rest then
        let elapsed := currentTime - wobbleStartTime
        let easedAmplitude := min amplitude (elapsed / wobbleEaseDuration * amplitude)
        { cs with currentAngle :=
            restAngle + easedAmplitude * Real.sin (currentTime * frequency + phaseOffset) }
      else cs

/-- The stopping branch of the `animate` callback of the repository variant
that carries a `decelerationEase` option (the `smoothness` constant): snap
threshold `0.0025` and factor `min(1, |diff| / (smoothness · 2π))`. -/
noncomputable def stoppingStepEase (decelerationEase deltaTime : ℝ)
    (cs : CylinderState) : CylinderState :=
  match cs.targetAngle with
  | none => cs
  | some target =>
      let diff := target - cs.currentAngle
      if |diff| < 0.0025 then
        { cs with currentAngle := target, status := Status.rest }
      else
        let decelerationFactor := min 1 (|diff| / (decelerationEase * 2 * π))
        let speed := cs.currentSpeed * decelerationFactor
        { cs with currentAngle := cs.currentAngle + Real.sign diff * speed * deltaTime }

/-- Claim C1: for a segment index in `[1, cylinderSegments]`, the target angle
assigned at stop-scheduling time — `getSegmentAngle(s)` plus
`(⌊currentAngle/2π⌋ + 2)` whole rotations — is strictly greater than the
reel's current angle, so the reel never rotates backward to its landing
symbol. -/
theorem scheduleTargetAngle_forward (n s : ℕ) (θ : ℝ) (h1 : 1 ≤ s) (h2 : s ≤ n) :
    θ < scheduleTargetAngle n s θ := by
  have hn : 0 < n := lt_of_lt_of_le one_pos (le_trans h1 h2)
  have hπ : 0 < π := Real.pi_pos
  have ha : 0 < 2 * π / n := by positivity
  have hs : (s : ℝ) ≤ (n : ℝ) := Nat.cast_le.mpr h2
  have hn0 : (n : ℝ) ≠ 0 := Nat.cast_ne_zero.mpr hn.ne'
  have hmul : (s : ℝ) * (2 * π / n) ≤ (n : ℝ) * (2 * π / n) :=
    mul_le_mul_of_nonneg_right hs ha.le
  have hcancel : (n : ℝ) * (2 * π / n) = 2 * π := by field_simp
  have hseg : 2 * π / n / 2 ≤ getSegmentAngle n s := by
    unfold getSegmentAngle
    nlinarith [hmul, hcancel, ha]
  have h2π : 0 < 2 * π := by positivity
  have hfl : θ / (2 * π) - 1 < (⌊θ / (2 * π)⌋ : ℝ) := Int.sub_one_lt_floor _
  have hrot : θ + 2 * π < ((⌊θ / (2 * π)⌋ : ℝ) + 2) * (2 * π) := by
    have hmul2 : (θ / (2 * π) + 1) * (2 * π) < ((⌊θ / (2 * π)⌋ : ℝ) + 2) * (2 * π) :=
      mul_lt_mul_of_pos_right (by linarith) h2π
    have hdiv : θ / (2 * π) * (2 * π) = θ := div_mul_cancel₀ _ h2π.ne'
    nlinarith [hmul2, hdiv]
  unfold scheduleTargetAngle
  nlinarith [hseg, ha, hrot]

/-- Witness for C1 at `n = 5`, `s = 3`, `θ = 0`. -/
theorem scheduleTargetAngle_forward_witness : (0 : ℝ) < scheduleTargetAngle 5 3 0 :=
  scheduleTargetAngle_forward 5 3 0 (by norm_num) (by norm_num)

/-- Claim C6: `getSegmentAngle` sends segment `s` to
`2π − ((s−1)·(2π/n) + (2π/n)/2)`, is injective on `[1, n]` (distinct
segments give distinct angles), and maps segment 1 to `2π − (2π/n)/2`. -/
theorem getSegmentAngle_spec (n : ℕ) :
    (∀ s : ℕ, getSegmentAngle n s =
        2 * π - (((s : ℝ) - 1) * (2 * π / n) + (2 * π / n) / 2)) ∧
    (∀ s₁ s₂ : ℕ, 1 ≤ s₁ → s₁ ≤ n → 1 ≤ s₂ → s₂ ≤ n → s₁ ≠ s₂ →
        getSegmentAngle n s₁ ≠ getSegmentAngle n s₂) ∧
    getSegmentAngle n 1 = 2 * π - (2 * π / n) / 2 := by
  refine ⟨fun s => rfl, ?_, ?_⟩
  · intro s₁ s₂ h11 h12 h21 h22 hne heq
    have hn : 0 < n := lt_of_lt_of_le one_pos (le_trans h11 h12)
    have hπ : 0 < π := Real.pi_pos
    have ha : (2 * π / n) ≠ 0 := by positivity
    unfold getSegmentAngle at heq
    have hmul : ((s₁ : ℝ) - 1) * (2 * π / n) = ((s₂ : ℝ) - 1) * (2 * π / n) := by
      linarith
    have hcast : (s₁ : ℝ) = (s₂ : ℝ) := by
      have := mul_right_cancel₀ ha hmul
      linarith
    exact hne (Nat.cast_injective hcast)
  · unfold getSegmentAngle
    norm_num

/-- Witness for C6: segments 1 and 2 of a 5-symbol reel land at distinct
angles. -/
theorem getSegmentAngle_spec_witness : getSegmentAngle 5 1 ≠ getSegmentAngle 5 2 :=
  (getSegmentAngle_spec 5).2.1 1 2 (by norm_num) (by norm_num) (by norm_num)
    (by norm_num) (by norm_num)

/-- Claim C9: a reel whose status is `stopping` but whose target angle is
absent is left completely unchanged by the frame update — the stopping
branch is guarded on the presence of a target, so no arithmetic touches an
absent target. -/
theorem stopping_without_target_unchanged (g : Status)
    (restAngle phaseOffset wobbleStartTime currentTime deltaTime θ speed : ℝ) :
    animateReel g restAngle phaseOffset wobbleStartTime currentTime deltaTime
        ⟨θ, speed, none, Status.stopping⟩ = ⟨θ, speed, none, Status.stopping⟩ :=
  rfl

/-- Claim C10: while the global phase is rest and the reel's status is rest,
the displayed angle stays within the wobble amplitude (0.1 rad) of the
stored rest angle, for every tick time at or after the wobble start time. -/
theorem rest_wobble_bounded
    (restAngle phaseOffset wobbleStartTime currentTime deltaTime θ speed : ℝ)
    (ta : Option ℝ) (h : wobbleStartTime ≤ currentTime) :
    |(animateReel Status.rest restAngle phaseOffset wobbleStartTime currentTime deltaTime
        ⟨θ, speed, ta, Status.rest⟩).currentAngle - restAngle| ≤ amplitude := by
  have hA : (0 : ℝ) ≤ amplitude := by norm_num [amplitude]
  have heased : 0 ≤ min amplitude
      ((currentTime - wobbleStartTime) / wobbleEaseDuration * amplitude) := by
    refine le_min hA (mul_nonneg ?_ hA)
    rw [wobbleEaseDuration]
    simpa using sub_nonneg.mpr h
  have key : (animateReel Status.rest restAngle phaseOffset wobbleStartTime currentTime deltaTime
      ⟨θ, speed, ta, Status.rest⟩).currentAngle
      = restAngle + min amplitude
          ((currentTime - wobbleStartTime) / wobbleEaseDuration * amplitude)
          * Real.sin (currentTime * frequency + phaseOffset) := rfl
  rw [key, add_sub_cancel_left, abs_mul, abs_of_nonneg heased]
  calc min amplitude ((currentTime - wobbleStartTime) / wobbleEaseDuration * amplitude)
        * |Real.sin (currentTime * frequency + phaseOffset)|
      ≤ min amplitude ((currentTime - wobbleStartTime) / wobbleEaseDuration * amplitude) * 1 :=
        mul_le_mul_of_nonneg_left (Real.abs_sin_le_one _) heased
    _ ≤ amplitude := by rw [mul_one]; exact min_le_left _ _

/-- Witness for C10 at tick time equal to the wobble start time. -/
theorem rest_wobble_bounded_witness :
    |(animateReel Status.rest 0 0 0 0 1 ⟨0, 1, none, Status.rest⟩).currentAngle - 0|
      ≤ amplitude :=
  rest_wobble_bounded 0 0 0 0 1 0 1 none le_rfl

/-- Claim C2: while a reel is stopping with an assigned target, a tick either
snaps exactly onto the target and rests when the remaining distance is below
the snap threshold, or advances by `sign(diff) · (speed · min(1, |diff| / (smoothness·2π))) · dt`
where the applied speed is nonnegative, at most the reel's spinning speed,
and tends to zero with the remaining distance; stated for both the
`smoothness = 1`, threshold `0.0001` variant of `src/index.ts` and the
`decelerationEase` variant with threshold `0.0025`. -/
theorem stopping_tick_spec (g : Status)
    (restAngle phaseOffset wobbleStartTime currentTime deltaTime speed target θ ease : ℝ)
    (hspeed : 0 ≤ speed) (hease : 0 < ease) :
    (|target - θ| < 0.0001 →
      animateReel g restAngle phaseOffset wobbleStartTime currentTime deltaTime
          ⟨θ, speed, some target, Status.stopping⟩ =
        ⟨target, speed, some target, Status.rest⟩) ∧
    (¬ |target - θ| < 0.0001 →
      animateReel g restAngle phaseOffset wobbleStartTime currentTime deltaTime
          ⟨θ, speed, some target, Status.stopping⟩ =
        ⟨θ + Real.sign (target - θ) * (speed * min 1 (|target - θ| / (2 * π))) * deltaTime,
          speed, some target, Status.stopping⟩) ∧
    (0 ≤ speed * min 1 (|target - θ| / (2 * π)) ∧
      speed * min 1 (|target - θ| / (2 * π)) ≤ speed) ∧
    Filter.Tendsto (fun d : ℝ => speed * min 1 (|d| / (2 * π)))
      (nhds 0) (nhds 0) ∧
    (|target - θ| < 0.0025 →
      stoppingStepEase ease deltaTime ⟨θ, speed, some target, Status.stopping⟩ =
        ⟨target, speed, some target, Status.rest⟩) ∧
    (¬ |target - θ| < 0.0025 →
      stoppingStepEase ease deltaTime ⟨θ, speed, some target, Status.stopping⟩ =
        ⟨θ + Real.sign (target - θ) * (speed * min 1 (|target - θ| / (ease * 2 * π))) * deltaTime,
          speed, some target, Status.stopping⟩) ∧
    (0 ≤ speed * min 1 (|target - θ| / (ease * 2 * π)) ∧
      speed * min 1 (|target - θ| / (ease * 2 * π)) ≤ speed) ∧
    Filter.Tendsto (fun d : ℝ => speed * min 1 (|d| / (ease * 2 * π)))
      (nhds 0) (nhds 0) := by
  have hπ : 0 < π := Real.pi_pos
  refine ⟨?_, ?_, ⟨?_, ?_⟩, ?_, ?_, ?_, ⟨?_, ?_⟩, ?_⟩
  · intro h
    simp only [animateReel]
    rw [if_pos h]
  · intro h
    simp only [animateReel]
    rw [if_neg h]
  · exact mul_nonneg hspeed (le_min zero_le_one (by positivity))
  · exact mul_le_of_le_one_right hspeed (min_le_left _ _)
  · have hc : Continuous fun d : ℝ => speed * min 1 (|d| / (2 * π)) :=
      continuous_const.mul (continuous_const.min (continuous_abs.div_const _))
    have h0 : speed * min 1 (|(0 : ℝ)| / (2 * π)) = 0 := by
      rw [abs_zero, zero_div, min_eq_right zero_le_one, mul_zero]
    simpa [h0] using hc.tendsto 0
  · intro h
    simp only [stoppingStepEase]
    rw [if_pos h]
  · intro h
    simp only [stoppingStepEase]
    rw [if_neg h]
  · exact mul_nonneg hspeed
      (le_min zero_le_one (div_nonneg (abs_nonneg _) (by positivity)))
  · exact mul_le_of_le_one_right hspeed (min_le_left _ _)
  · have hc : Continuous fun d : ℝ => speed * min 1 (|d| / (ease * 2 * π)) :=
      continuous_const.mul (continuous_const.min (continuous_abs.div_const _))
    have h0 : speed * min 1 (|(0 : ℝ)| / (ease * 2 * π)) = 0 := by
      rw [abs_zero, zero_div, min_eq_right zero_le_one, mul_zero]
    simpa [h0] using hc.tendsto 0

/-- Witness for C2: a reel already within the snap threshold of its target
snaps exactly onto it and comes to rest. -/
theorem stopping_tick_spec_witness :
    animateReel Status.stopping 0 0 0 0 1 ⟨0, 1, some 0, Status.stopping⟩ =
      ⟨(0 : ℝ), 1, some 0, Status.rest⟩ :=
  (stopping_tick_spec Status.stopping 0 0 0 0 1 1 0 0 2 (by norm_num) (by norm_num)).1
    (by norm_num)

/-- Claim C7 (amended): a spinning tick never moves the angle backward for
nonnegative speed and delta time; a stopping tick never moves the angle
backward provided additionally the angle has not yet passed the target
(`θ ≤ targetAngle`). -/
theorem angle_nondecreasing_amended (g : Status)
    (restAngle phaseOffset wobbleStartTime currentTime deltaTime speed θ : ℝ)
    (ta : Option ℝ) (hspeed : 0 ≤ speed) (hdt : 0 ≤ deltaTime) :
    θ ≤ (animateReel g restAngle phaseOffset wobbleStartTime currentTime deltaTime
        ⟨θ, speed, ta, Status.spinning⟩).currentAngle ∧
    (∀ target : ℝ, θ ≤ target →
      θ ≤ (animateReel g restAngle phaseOffset wobbleStartTime currentTime deltaTime
          ⟨θ, speed, some target, Status.stopping⟩).currentAngle) := by
  constructor
  · have key : (animateReel g restAngle phaseOffset wobbleStartTime currentTime deltaTime
        ⟨θ, speed, ta, Status.spinning⟩).currentAngle = θ + speed * deltaTime := rfl
    rw [key]
    exact le_add_of_nonneg_right (mul_nonneg hspeed hdt)
  · intro target hle
    by_cases hsnap : |target - θ| < 0.0001
    · have key : (animateReel g restAngle phaseOffset wobbleStartTime currentTime deltaTime
          ⟨θ, speed, some target, Status.stopping⟩).currentAngle = target := by
        simp only [animateReel]
        rw [if_pos hsnap]
      rw [key]
      exact hle
    · have hdiff : 0 < target - θ := by
        rcases eq_or_lt_of_le hle with heq | hlt
        · exact absurd (by rw [← heq]; norm_num) hsnap
        · linarith
      have key : (animateReel g restAngle phaseOffset wobbleStartTime currentTime deltaTime
          ⟨θ, speed, some target, Status.stopping⟩).currentAngle
          = θ + Real.sign (target - θ)
              * (speed * min 1 (|target - θ| / (2 * π))) * deltaTime := by
        simp only [animateReel]
        rw [if_neg hsnap]
      rw [key, Real.sign_of_pos hdiff, one_mul]
      have hf : 0 ≤ speed * min 1 (|target - θ| / (2 * π)) :=
        mul_nonneg hspeed (le_min zero_le_one (by positivity))
      nlinarith [mul_nonneg hf hdt]

/-- Witness for C7's amended statement at speed 1, delta time 1, angle 0,
target 5. -/
theorem angle_nondecreasing_amended_witness :
    (0 : ℝ) ≤ (animateReel Status.stopping 0 0 0 0 1
        ⟨0, 1, some 5, Status.stopping⟩).currentAngle :=
  (angle_nondecreasing_amended Status.stopping 0 0 0 0 1 1 0 none
      (by norm_num) (by norm_num)).2 5 (by norm_num)

/-- Helper: one stopping tick with speed 30 and delta time 1, starting at
angle 0 toward target 1, overshoots to angle `15/π`. -/
lemma animateReel_overshoot_eval :
    animateReel Status.stopping 0 0 0 0 1 ⟨0, 30, some 1, Status.stopping⟩ =
      ⟨15 / π, 30, some 1, Status.stopping⟩ := by
  have hπ : 0 < π := Real.pi_pos
  have h2π : (1 : ℝ) ≤ 2 * π := by nlinarith [Real.pi_gt_three]
  have hsnap : ¬ |(1 : ℝ) - 0| < 0.0001 := by norm_num
  simp only [animateReel]
  rw [if_neg hsnap]
  have hone : |(1 : ℝ) - 0| = 1 := by norm_num
  have hmin : min 1 (|(1 : ℝ) - 0| / (2 * π)) = 1 / (2 * π) := by
    rw [hone, min_eq_right]
    rw [div_le_one (by positivity)]
    exact h2π
  have hsign : Real.sign ((1 : ℝ) - 0) = 1 := by
    rw [show (1 : ℝ) - 0 = 1 by norm_num, Real.sign_one]
  rw [hmin, hsign]
  have : (0 : ℝ) + 1 * (30 * (1 / (2 * π))) * 1 = 15 / π := by
    field_simp
    ring
  rw [this]

/-- Helper: `15/π` exceeds 2 (used by the overshoot counterexamples). -/
lemma fifteen_div_pi_gt_two : (2 : ℝ) < 15 / π := by
  have hπ : 0 < π := Real.pi_pos
  rw [lt_div_iff₀ hπ]
  nlinarith [Real.pi_lt_d2]

/-- Counterexample to claim C7 as stated: starting from a legitimately
scheduled stopping state (angle 0, target 1, speed 30), with delta time 1
the first tick overshoots the target and the second tick moves the angle
strictly backward, although speed and delta time are nonnegative. -/
theorem angle_can_decrease_counterexample :
    (animateReel Status.stopping 0 0 0 0 1
        (animateReel Status.stopping 0 0 0 0 1 ⟨0, 30, some 1, Status.stopping⟩)).currentAngle
      < (animateReel Status.stopping 0 0 0 0 1
          ⟨0, 30, some 1, Status.stopping⟩).currentAngle := by
  rw [animateReel_overshoot_eval]
  have hπ : 0 < π := Real.pi_pos
  have h15 := fifteen_div_pi_gt_two
  have hdiffneg : (1 : ℝ) - 15 / π < 0 := by linarith
  have hsnap : ¬ |(1 : ℝ) - 15 / π| < 0.0001 := by
    rw [abs_of_neg hdiffneg, not_lt]
    nlinarith
  have key : (animateReel Status.stopping 0 0 0 0 1
      ⟨15 / π, 30, some 1, Status.stopping⟩).currentAngle
      = 15 / π + Real.sign (1 - 15 / π)
          * (30 * min 1 (|1 - 15 / π| / (2 * π))) * 1 := by
    simp only [animateReel]
    rw [if_neg hsnap]
  rw [key, Real.sign_of_neg hdiffneg]
  have hfpos : 0 < min 1 (|1 - 15 / π| / (2 * π)) :=
    lt_min one_pos (div_pos (abs_pos.mpr (by linarith)) (by positivity))
  nlinarith [hfpos]

/-- Counterexample to claim C3 as stated: with positive base speed 30 and
fixed step 1, a stopping reel at distance 1 from its target has a strictly
larger remaining distance after one tick — the remaining distance is not
non-increasing for every positive base speed. -/
theorem stopping_distance_can_increase :
    ¬ (|1 - (animateReel Status.stopping 0 0 0 0 1
          ⟨0, 30, some 1, Status.stopping⟩).currentAngle|
        ≤ |1 - (⟨0, 30, some 1, Status.stopping⟩ : CylinderState).currentAngle|) := by
  rw [animateReel_overshoot_eval]
  have hπ : 0 < π := Real.pi_pos
  have h15 := fifteen_div_pi_gt_two
  have habs : |(1 : ℝ) - 15 / π| = 15 / π - 1 := by
    rw [abs_of_nonpos (by linarith)]
    ring
  have hstart : |1 - (⟨0, 30, some 1, Status.stopping⟩ : CylinderState).currentAngle| = 1 := by
    norm_num
  rw [habs, hstart, not_le]
  linarith

/-- The signed remaining distance to the target after one stopping tick, as a
function of the distance before the tick; `c` abbreviates
`currentSpeed * deltaTime`. `stopping_iter_diff` proves this corresponds to
the `animateReel` stopping branch. -/
noncomputable def nextDiff (c d : ℝ) : ℝ :=
  if |d| < 0.0001 then 0 else d - Real.sign d * min 1 (|d| / (2 * π)) * c

/-- Invariant carried by a stopping reel across ticks: its speed and target
are never revised and, once snapped, it sits exactly on the target. -/
def StoppingInv (speed target : ℝ) (cs : CylinderState) : Prop :=
  cs.currentSpeed = speed ∧ cs.targetAngle = some target ∧
    (cs.status = Status.stopping ∨ (cs.status = Status.rest ∧ cs.currentAngle = target))

lemma sign_mul_self_abs (d : ℝ) (hd : d ≠ 0) : Real.sign d * |d| = d := by
  rcases hd.lt_or_lt with hneg | hpos
  · rw [Real.sign_of_neg hneg, abs_of_neg hneg]
    ring
  · rw [Real.sign_of_pos hpos, abs_of_pos hpos]
    ring

lemma stopping_tick_step (restAngle phaseOffset wobbleStartTime currentTime dt : ℝ)
    (speed target : ℝ) (cs : CylinderState) (h : StoppingInv speed target cs) :
    StoppingInv speed target
        (animateReel Status.stopping restAngle phaseOffset wobbleStartTime currentTime dt cs) ∧
      target - (animateReel Status.stopping restAngle phaseOffset wobbleStartTime currentTime dt
          cs).currentAngle
        = nextDiff (speed * dt) (target - cs.currentAngle) := by
  obtain ⟨hsp, hta, hst⟩ := h
  obtain ⟨θ, sp, ta, st⟩ := cs
  dsimp only at hsp hta hst ⊢
  subst hta
  rw [hsp]
  rcases hst with hstop | ⟨hrest, hangle⟩
  · subst hstop
    by_cases hsnap : |target - θ| < 0.0001
    · have keq : animateReel Status.stopping restAngle phaseOffset wobbleStartTime currentTime dt
          ⟨θ, speed, some target, Status.stopping⟩
          = ⟨target, speed, some target, Status.rest⟩ := by
        simp only [animateReel]
        rw [if_pos hsnap]
      rw [keq]
      refine ⟨⟨rfl, rfl, Or.inr ⟨rfl, rfl⟩⟩, ?_⟩
      dsimp only
      rw [sub_self, nextDiff, if_pos hsnap]
    · have keq : animateReel Status.stopping restAngle phaseOffset wobbleStartTime currentTime dt
          ⟨θ, speed, some target, Status.stopping⟩
          = ⟨θ + Real.sign (target - θ) * (speed * min 1 (|target - θ| / (2 * π))) * dt,
              speed, some target, Status.stopping⟩ := by
        simp only [animateReel]
        rw [if_neg hsnap]
      rw [keq]
      refine ⟨⟨rfl, rfl, Or.inl rfl⟩, ?_⟩
      dsimp only
      rw [nextDiff, if_neg hsnap]
      ring
  · subst hrest
    rw [hangle]
    have keq : animateReel Status.stopping restAngle phaseOffset wobbleStartTime currentTime dt
        ⟨target, speed, some target, Status.rest⟩
        = ⟨target, speed, some target, Status.rest⟩ := rfl
    rw [keq]
    refine ⟨⟨rfl, rfl, Or.inr ⟨rfl, rfl⟩⟩, ?_⟩
    dsimp only
    rw [sub_self, nextDiff, if_pos (by norm_num)]

/-- Iterating the frame update on a stopping reel preserves the stopping
invariant, and the remaining signed distance evolves exactly as the
iteration of `nextDiff (speed * dt)`. -/
lemma stopping_iter_diff (dt speed target θ₀ : ℝ) (k : ℕ) :
    StoppingInv speed target
        ((animateReel Status.stopping 0 0 0 0 dt)^[k]
          ⟨θ₀, speed, some target, Status.stopping⟩) ∧
      target - ((animateReel Status.stopping 0 0 0 0 dt)^[k]
          ⟨θ₀, speed, some target, Status.stopping⟩).currentAngle
        = (nextDiff (speed * dt))^[k] (target - θ₀) := by
  induction k with
  | zero => exact ⟨⟨rfl, rfl, Or.inl rfl⟩, rfl⟩
  | succ k ih =>
    obtain ⟨hinv, hdiff⟩ := ih
    obtain ⟨h1, h2⟩ := stopping_tick_step 0 0 0 0 dt speed target _ hinv
    rw [Function.iterate_succ_apply', Function.iterate_succ_apply']
    exact ⟨h1, by rw [h2, hdiff]⟩

lemma nextDiff_contract (c d : ℝ) (hd : |d| ≤ 2 * π) :
    |nextDiff c d| ≤ |1 - c / (2 * π)| * |d| := by
  unfold nextDiff
  by_cases hsnap : |d| < 0.0001
  · rw [if_pos hsnap, abs_zero]
    positivity
  · rw [if_neg hsnap]
    have hdne : d ≠ 0 := by
      intro h0
      rw [h0] at hsnap
      exact hsnap (by norm_num)
    have hmin : min 1 (|d| / (2 * π)) = |d| / (2 * π) :=
      min_eq_right (by rw [div_le_one Real.two_pi_pos]; exact hd)
    rw [hmin]
    have hkey : d - Real.sign d * (|d| / (2 * π)) * c = d * (1 - c / (2 * π)) := by
      have hsabs : Real.sign d * |d| = d := sign_mul_self_abs d hdne
      calc d - Real.sign d * (|d| / (2 * π)) * c
          = d - Real.sign d * |d| * (c / (2 * π)) := by ring
        _ = d - d * (c / (2 * π)) := by rw [hsabs]
        _ = d * (1 - c / (2 * π)) := by ring
    rw [hkey, abs_mul, mul_comm]

lemma nextDiff_big_decrease (c d : ℝ) (_hc0 : 0 ≤ c) (_hc4 : c ≤ 4 * π) (hd : 2 * π ≤ |d|) :
    |nextDiff c d| ≤ |d| - min c (4 * π - c) := by
  have hπ := Real.pi_pos
  have hsnap : ¬ |d| < 0.0001 := by
    rw [not_lt]
    nlinarith [Real.pi_gt_three]
  unfold nextDiff
  rw [if_neg hsnap]
  have hmin : min 1 (|d| / (2 * π)) = 1 :=
    min_eq_left (by rw [le_div_iff₀ Real.two_pi_pos]; linarith)
  rw [hmin, mul_one]
  have hdne : d ≠ 0 := by
    intro h0
    rw [h0, abs_zero] at hd
    nlinarith
  have habs : |d - Real.sign d * c| = |(|d| - c)| := by
    rcases hdne.lt_or_lt with hneg | hpos
    · rw [Real.sign_of_neg hneg, abs_of_neg hneg]
      rw [show d - (-1) * c = -(-d - c) by ring, abs_neg]
    · rw [Real.sign_of_pos hpos, abs_of_pos hpos, one_mul]
  rw [habs]
  rcases le_or_lt c |d| with hcle | hclt
  · rw [abs_of_nonneg (by linarith)]
    have := min_le_left c (4 * π - c)
    linarith
  · rw [abs_of_neg (by linarith)]
    have := min_le_right c (4 * π - c)
    linarith

lemma ratio_le_one (c : ℝ) (hc0 : 0 ≤ c) (hc4 : c ≤ 4 * π) : |1 - c / (2 * π)| ≤ 1 := by
  have h2π := Real.two_pi_pos
  have hx0 : 0 ≤ c / (2 * π) := div_nonneg hc0 h2π.le
  have hx2 : c / (2 * π) ≤ 2 := by
    rw [div_le_iff₀ h2π]
    linarith
  rw [abs_le]
  constructor <;> linarith

lemma ratio_lt_one (c : ℝ) (hc0 : 0 < c) (hc4 : c < 4 * π) : |1 - c / (2 * π)| < 1 := by
  have h2π := Real.two_pi_pos
  have hx0 : 0 < c / (2 * π) := div_pos hc0 h2π
  have hx2 : c / (2 * π) < 2 := by
    rw [div_lt_iff₀ h2π]
    linarith
  rw [abs_lt]
  constructor <;> linarith

lemma nextDiff_nonincrease (c d : ℝ) (hc0 : 0 ≤ c) (hc4 : c ≤ 4 * π) :
    |nextDiff c d| ≤ |d| := by
  rcases le_or_lt |d| (2 * π) with hsmall | hbig
  · calc |nextDiff c d| ≤ |1 - c / (2 * π)| * |d| := nextDiff_contract c d hsmall
      _ ≤ 1 * |d| := mul_le_mul_of_nonneg_right (ratio_le_one c hc0 hc4) (abs_nonneg d)
      _ = |d| := one_mul _
  · have hdec := nextDiff_big_decrease c d hc0 hc4 hbig.le
    have hmin0 : 0 ≤ min c (4 * π - c) := le_min hc0 (by linarith)
    linarith

lemma nextDiff_reach_small (c : ℝ) (hc0 : 0 < c) (hc4 : c < 4 * π) :
    ∀ k : ℕ, ∀ d : ℝ, |d| ≤ 2 * π + k * min c (4 * π - c) →
      ∃ m : ℕ, |(nextDiff c)^[m] d| ≤ 2 * π := by
  intro k
  induction k with
  | zero =>
    intro d hd
    exact ⟨0, by simpa using hd⟩
  | succ k ih =>
    intro d hd
    rcases le_or_lt |d| (2 * π) with hsmall | hbig
    · exact ⟨0, by simpa using hsmall⟩
    · have hdec := nextDiff_big_decrease c d hc0.le hc4.le hbig.le
      have hnext : |nextDiff c d| ≤ 2 * π + k * min c (4 * π - c) := by
        push_cast at hd
        linarith
      obtain ⟨m, hm⟩ := ih (nextDiff c d) hnext
      exact ⟨m + 1, by rwa [Function.iterate_succ_apply]⟩

lemma nextDiff_small_geometric (c : ℝ) (hc0 : 0 ≤ c) (hc4 : c ≤ 4 * π) (d : ℝ)
    (hd : |d| ≤ 2 * π) (j : ℕ) :
    |(nextDiff c)^[j] d| ≤ |1 - c / (2 * π)| ^ j * (2 * π) := by
  induction j with
  | zero => simpa using hd
  | succ j ih =>
    have hr0 : 0 ≤ |1 - c / (2 * π)| := abs_nonneg _
    have hr1 : |1 - c / (2 * π)| ≤ 1 := ratio_le_one c hc0 hc4
    have hsmall : |(nextDiff c)^[j] d| ≤ 2 * π := by
      calc |(nextDiff c)^[j] d| ≤ |1 - c / (2 * π)| ^ j * (2 * π) := ih
        _ ≤ 1 * (2 * π) :=
          mul_le_mul_of_nonneg_right (pow_le_one₀ hr0 hr1) Real.two_pi_pos.le
        _ = 2 * π := one_mul _
    rw [Function.iterate_succ_apply']
    calc |nextDiff c ((nextDiff c)^[j] d)|
        ≤ |1 - c / (2 * π)| * |(nextDiff c)^[j] d| := nextDiff_contract _ _ hsmall
      _ ≤ |1 - c / (2 * π)| * (|1 - c / (2 * π)| ^ j * (2 * π)) :=
          mul_le_mul_of_nonneg_left ih hr0
      _ = |1 - c / (2 * π)| ^ (j + 1) * (2 * π) := by ring

lemma nextDiff_converges (c : ℝ) (hc0 : 0 < c) (hc4 : c < 4 * π) (d : ℝ) :
    ∃ N : ℕ, |(nextDiff c)^[N] d| < 0.0001 := by
  have hδ : 0 < min c (4 * π - c) := lt_min hc0 (by linarith)
  obtain ⟨k, hk⟩ := exists_nat_ge (|d| / min c (4 * π - c))
  have hdk : |d| ≤ 2 * π + k * min c (4 * π - c) := by
    rw [div_le_iff₀ hδ] at hk
    nlinarith [Real.pi_pos]
  obtain ⟨m, hm⟩ := nextDiff_reach_small c hc0 hc4 k d hdk
  have hr1 : |1 - c / (2 * π)| < 1 := ratio_lt_one c hc0 hc4
  obtain ⟨j, hj⟩ :=
    exists_pow_lt_of_lt_one (show (0 : ℝ) < 0.0001 / (2 * π) by positivity) hr1
  refine ⟨j + m, ?_⟩
  rw [Function.iterate_add_apply]
  have hgeo := nextDiff_small_geometric c hc0.le hc4.le _ hm j
  have hlt : |1 - c / (2 * π)| ^ j * (2 * π) < 0.0001 := by
    have h2π := Real.two_pi_pos
    calc |1 - c / (2 * π)| ^ j * (2 * π)
        < 0.0001 / (2 * π) * (2 * π) := mul_lt_mul_of_pos_right hj h2π
      _ = 0.0001 := div_mul_cancel₀ _ h2π.ne'
  linarith

/-- Claim C3 (amended): under repeated fixed-step stopping ticks with
`0 < baseSpeed · dt < 4π` (less than two full rotations of travel per tick),
the remaining distance `|targetAngle − currentAngle|` is non-increasing from
tick to tick and falls below the snap threshold `0.0001` after finitely many
ticks, for every finite initial distance. For `baseSpeed · dt ≥ 4π` the
distance can grow (see the counterexample). -/
theorem stopping_convergence_amended (speed target θ₀ dt : ℝ)
    (h1 : 0 < speed * dt) (h2 : speed * dt < 4 * π) :
    (∀ k : ℕ,
      |target - ((animateReel Status.stopping 0 0 0 0 dt)^[k + 1]
          ⟨θ₀, speed, some target, Status.stopping⟩).currentAngle|
        ≤ |target - ((animateReel Status.stopping 0 0 0 0 dt)^[k]
            ⟨θ₀, speed, some target, Status.stopping⟩).currentAngle|) ∧
    ∃ N : ℕ, |target - ((animateReel Status.stopping 0 0 0 0 dt)^[N]
        ⟨θ₀, speed, some target, Status.stopping⟩).currentAngle| < 0.0001 := by
  constructor
  · intro k
    rw [(stopping_iter_diff dt speed target θ₀ (k + 1)).2,
      (stopping_iter_diff dt speed target θ₀ k).2, Function.iterate_succ_apply']
    exact nextDiff_nonincrease _ _ h1.le h2.le
  · obtain ⟨N, hN⟩ := nextDiff_converges (speed * dt) h1 h2 (target - θ₀)
    refine ⟨N, ?_⟩
    rw [(stopping_iter_diff dt speed target θ₀ N).2]
    exact hN

/-- Witness for C3's amended statement: speed 1, delta time 1, target 5 from
angle 0 settles below the snap threshold in finitely many ticks. -/
theorem stopping_convergence_amended_witness :
    ∃ N : ℕ, |(5 : ℝ) - ((animateReel Status.stopping 0 0 0 0 1)^[N]
        ⟨0, 1, some 5, Status.stopping⟩).currentAngle| < 0.0001 :=
  (stopping_convergence_amended 1 5 0 1 (by norm_num)
      (by nlinarith [Real.pi_gt_three])).2

/-- A queued spin request, `SpinState` in the source: the per-reel stop
segments and a completion callback, the latter modelled by a numeric
identifier whose invocation is recorded in an event log. -/
structure SpinRequest where
  finalSegments : List ℕ
  callbackId : ℕ
deriving DecidableEq, Repr

/-- Observable callback invocations: a spin completion callback (identified
by its request's `callbackId`) or the configured `finalCallback`. -/
inductive SpinEvent
  | completed (callbackId : ℕ)
  | finalFired
deriving DecidableEq, Repr

/-- The construction options consulted by the orchestration methods, with
the presence of the optional `finalCallback` as a boolean. -/
structure Config where
  cylinderCount : ℕ
  cylinderSegments : ℕ
  rotationSpeed : ℝ
  spinSpeedMultiplier : ℝ
  hasFinalCallback : Bool

/-- Orchestrator state: the `SlotReel` fields that drive spins, plus an
event log recording callback invocations and two booleans mirroring which
listeners are attached to the button (`pointerdown` runs `startNextSpin`;
`click` runs `finalCallback` once `finalizeSpin` has armed it after the
queue drains). -/
structure OrchState where
  currentGlobalState : Status
  cylinderStates : List CylinderState
  spinQueue : List SpinRequest
  currentSpinState : Option SpinRequest
  finalSegments : List ℕ
  restAngles : List ℝ
  buttonAttached : Bool
  finalClickAttached : Bool
  firedEvents : List SpinEvent

/-- The effective stop-segment list computed by `startNextSpin`: the
request's list when its length equals the reel count, otherwise its
`slice(0, cylinderCount)` — which truncates longer lists and returns
shorter lists unchanged, exactly like `Array.prototype.slice`. -/
def effectiveFinalSegments (cylinderCount : ℕ) (segs : List ℕ) : List ℕ :=
  if segs.length = cylinderCount then segs else segs.take cylinderCount

/-- The synchronous body of `startNextSpin`: returns immediately unless the
global state is rest and the queue is non-empty; otherwise pops the queue
head, flips the global state and every reel to spinning at
`rotationSpeed * spinSpeedMultiplier`, and stores the effective stop-segment
list. (The stop timer it schedules is modelled by `scheduleStops`.) -/
def startNextSpin (cfg : Config) (s : OrchState) : OrchState :=
  if s.currentGlobalState ≠ Status.rest ∨ s.spinQueue = [] then s
  else
    match s.spinQueue with
    | [] => s
    | req :: remaining =>
        { s with
          currentSpinState := some req,
          spinQueue := remaining,
          currentGlobalState := Status.spinning,
          cylinderStates := s.cylinderStates.map fun cs =>
            { cs with
              currentSpeed := cfg.rotationSpeed * cfg.spinSpeedMultiplier,
              status := Status.spinning },
          finalSegments := effectiveFinalSegments cfg.cylinderCount req.finalSegments }

/-- The stop-scheduling timers of `startNextSpin` having all fired: the
`STOP_DELAY_MS` timeout flips the global state to stopping, and each
staggered per-reel timeout assigns reel `i` the target
`scheduleTargetAngle` of `finalSegments[i]` at the reel's angle at
scheduling time and flips that reel to stopping. The JS indexed read
`finalSegments[i]` is modelled with default `0` when out of range (no claim
evaluates the resulting angle in that case, where JS would produce NaN). -/
noncomputable def scheduleStops (cfg : Config) (s : OrchState) : OrchState :=
  { s with
    currentGlobalState := Status.stopping,
    cylinderStates := s.cylinderStates.enum.map fun p =>
      { p.2 with
        targetAngle := some (scheduleTargetAngle cfg.cylinderSegments
          (s.finalSegments.getD p.1 0) p.2.currentAngle),
        status := Status.stopping } }

/-- The animation loop run to convergence on the stopping reels: every reel
with an assigned target eventually snaps exactly onto it and rests
(`stopping_convergence_amended`); this abstracts those finitely many
`animateReel` ticks. -/
def settleReels (s : OrchState) : OrchState :=
  { s with
    cylinderStates := s.cylinderStates.map fun cs =>
      match cs.targetAngle with
      | some t => { cs with currentAngle := t, status := Status.rest }
      | none => cs }

/-- `finalizeSpin` from the source: flips the global state back to rest,
re-records the rest angles, invokes the current request's completion
callback, and, when the queue is empty and the button present, removes the
`pointerdown` (spin) listener and — when a `finalCallback` is configured —
attaches the `click` listener that will invoke it. -/
def finalizeSpin (cfg : Config) (s : OrchState) : OrchState :=
  { s with
    currentGlobalState := Status.rest,
    restAngles := s.cylinderStates.map fun cs => cs.currentAngle,
    firedEvents := s.firedEvents ++
      (match s.currentSpinState with
        | some req => [SpinEvent.completed req.callbackId]
        | none => []),
    buttonAttached :=
      if s.spinQueue = [] ∧ s.buttonAttached = true then false else s.buttonAttached,
    finalClickAttached :=
      if s.spinQueue = [] ∧ s.buttonAttached = true ∧ cfg.hasFinalCallback = true then true
      else s.finalClickAttached }

/-- The `allRest` check the `animate` loop performs while the global state is
stopping: `finalizeSpin` runs exactly when every reel reports rest. -/
def maybeFinalize (cfg : Config) (s : OrchState) : OrchState :=
  if s.currentGlobalState = Status.stopping ∧ ∀ cs ∈ s.cylinderStates, cs.status = Status.rest
  then finalizeSpin cfg s else s

/-- A pointerdown on the button: runs `startNextSpin` while that listener is
attached, nothing once `finalizeSpin` has removed it. -/
def pressButton (cfg : Config) (s : OrchState) : OrchState :=
  if s.buttonAttached = true then startNextSpin cfg s else s

/-- A click on the button after the queue has drained: fires the configured
`finalCallback` once per click while the `click` listener is attached. -/
def clickButton (s : OrchState) : OrchState :=
  if s.finalClickAttached = true then
    { s with firedEvents := s.firedEvents ++ [SpinEvent.finalFired] }
  else s

/-- One full spin timeline following a button press in a settled state: the
press starts the spin, the stop timers fire, the reels settle, and the
animation loop finalizes. A press that does not start a spin (busy, empty
queue, or detached listener) schedules nothing. -/
noncomputable def runOneSpin (cfg : Config) (s : OrchState) : OrchState :=
  if s.buttonAttached = true ∧ s.currentGlobalState = Status.rest ∧ s.spinQueue ≠ [] then
    maybeFinalize cfg (settleReels (scheduleStops cfg (startNextSpin cfg s)))
  else pressButton cfg s

/-- What `startNextSpin` does when its guard passes: pops the head request,
flips everything to spinning, and stores the effective stop-segment list. -/
lemma startNextSpin_pop (cfg : Config) (s : OrchState) (req : SpinRequest)
    (remaining : List SpinRequest) (hg : s.currentGlobalState = Status.rest)
    (hq : s.spinQueue = req :: remaining) :
    startNextSpin cfg s =
      { s with
        currentSpinState := some req,
        spinQueue := remaining,
        currentGlobalState := Status.spinning,
        cylinderStates := s.cylinderStates.map fun cs =>
          { cs with
            currentSpeed := cfg.rotationSpeed * cfg.spinSpeedMultiplier,
            status := Status.spinning },
        finalSegments := effectiveFinalSegments cfg.cylinderCount req.finalSegments } := by
  unfold startNextSpin
  rw [if_neg (by simp [hg, hq]), hq]

/-- The guard of `startNextSpin`: a call while busy or with an empty queue
returns the state untouched. -/
lemma startNextSpin_guard (cfg : Config) (s : OrchState)
    (h : s.currentGlobalState ≠ Status.rest ∨ s.spinQueue = []) :
    startNextSpin cfg s = s := by
  unfold startNextSpin
  rw [if_pos h]

/-- Claim C4: calling `startNextSpin` while the global phase is not rest or
the queue is empty is a no-op — it pops nothing and leaves the whole state
(queue and every reel) unchanged; and a second call issued while a spin is
in flight is such a no-op, so two back-to-back calls pop exactly one
request. -/
theorem startNextSpin_noop (cfg : Config) (s : OrchState) :
    (s.currentGlobalState ≠ Status.rest ∨ s.spinQueue = [] → startNextSpin cfg s = s) ∧
    (s.currentGlobalState = Status.rest → s.spinQueue ≠ [] →
      startNextSpin cfg (startNextSpin cfg s) = startNextSpin cfg s ∧
      (startNextSpin cfg (startNextSpin cfg s)).spinQueue.length + 1 = s.spinQueue.length) := by
  constructor
  · exact startNextSpin_guard cfg s
  · intro hg hq
    obtain ⟨req, remaining, hqeq⟩ := List.exists_cons_of_ne_nil hq
    have hkey := startNextSpin_pop cfg s req remaining hg hqeq
    have hg2 : (startNextSpin cfg s).currentGlobalState ≠ Status.rest := by
      rw [hkey]
      simp
    have hnoop : startNextSpin cfg (startNextSpin cfg s) = startNextSpin cfg s :=
      startNextSpin_guard cfg (startNextSpin cfg s) (Or.inl hg2)
    refine ⟨hnoop, ?_⟩
    rw [hnoop, hkey, hqeq]
    simp

/-- A busy orchestrator state (a spin in flight) used as concrete input. -/
def busyState : OrchState :=
  ⟨Status.spinning, [⟨0, 1, none, Status.spinning⟩], [⟨[1, 2, 3], 0⟩], none,
    [], [], true, false, []⟩

/-- The default construction options that the claims exercise: 3 reels,
5 symbols per reel, `rotationSpeed` 1, `spinSpeedMultiplier` 30, an
`finalCallback` configured. -/
def sampleConfig : Config := ⟨3, 5, 1, 30, true⟩

/-- Witness for C4: a call while a spin is in flight changes nothing. -/
theorem startNextSpin_noop_witness : startNextSpin sampleConfig busyState = busyState :=
  (startNextSpin_noop sampleConfig busyState).1 (Or.inl (by decide))

lemma effectiveFinalSegments_length (count : ℕ) (segs : List ℕ) :
    (effectiveFinalSegments count segs).length = min segs.length count := by
  unfold effectiveFinalSegments
  split_ifs with h
  · rw [h, min_self]
  · rw [List.length_take, Nat.min_comm]

/-- A settled orchestrator state whose single queued request carries a
stop-segment list shorter than the reel count. -/
def shortRequestState : OrchState :=
  ⟨Status.rest, [⟨0, 1, none, Status.rest⟩], [⟨[7], 0⟩], none, [], [], true, false, []⟩

/-- Counterexample to claim C8 as stated: with reel count 3, popping a
request whose stop-segment list is `[7]` stores the effective list `[7]`
itself — length 1, not the reel count 3. Short lists are not padded. -/
theorem effective_segments_not_padded :
    ((startNextSpin sampleConfig shortRequestState).finalSegments).length ≠
      sampleConfig.cylinderCount := by
  decide

/-- Claim C8 (amended): the effective stop-segment list stored by
`startNextSpin` when it pops a request is the request's list when the
lengths already agree and its `slice(0, cylinderCount)` truncation
otherwise; its length is therefore `min (request length) (reel count)` —
equal to the reel count only when the request's list is at least that long;
shorter lists are used as they are, never padded. -/
theorem effective_segments_amended (cfg : Config) (s : OrchState) (req : SpinRequest)
    (remaining : List SpinRequest) (hg : s.currentGlobalState = Status.rest)
    (hq : s.spinQueue = req :: remaining) :
    (startNextSpin cfg s).finalSegments =
      effectiveFinalSegments cfg.cylinderCount req.finalSegments ∧
    (startNextSpin cfg s).finalSegments.length =
      min req.finalSegments.length cfg.cylinderCount := by
  rw [startNextSpin_pop cfg s req remaining hg hq]
  exact ⟨rfl, effectiveFinalSegments_length _ _⟩

/-- Witness for C8's amended statement on the short-request state. -/
theorem effective_segments_amended_witness :
    (startNextSpin sampleConfig shortRequestState).finalSegments =
      effectiveFinalSegments sampleConfig.cylinderCount
        (⟨[7], 0⟩ : SpinRequest).finalSegments :=
  (effective_segments_amended sampleConfig shortRequestState ⟨[7], 0⟩ [] rfl rfl).1

lemma settle_scheduleStops_all_rest (cfg : Config) (s : OrchState) :
    ∀ cs ∈ (settleReels (scheduleStops cfg s)).cylinderStates,
      cs.status = Status.rest := by
  intro cs hcs
  simp only [settleReels, scheduleStops] at hcs
  rw [List.mem_map] at hcs
  obtain ⟨a, ha, rfl⟩ := hcs
  rw [List.mem_map] at ha
  obtain ⟨p, hp, rfl⟩ := ha
  rfl

/-- The observable effect of one full successful spin timeline from a
settled state with a non-empty queue and armed button. -/
lemma runOneSpin_step (cfg : Config) (s : OrchState) (req : SpinRequest)
    (remaining : List SpinRequest) (hg : s.currentGlobalState = Status.rest)
    (hq : s.spinQueue = req :: remaining) (hb : s.buttonAttached = true) :
    (runOneSpin cfg s).currentGlobalState = Status.rest ∧
    (runOneSpin cfg s).spinQueue = remaining ∧
    (runOneSpin cfg s).firedEvents =
      s.firedEvents ++ [SpinEvent.completed req.callbackId] ∧
    (runOneSpin cfg s).buttonAttached = (if remaining = [] then false else true) ∧
    (runOneSpin cfg s).finalClickAttached =
      (if remaining = [] ∧ cfg.hasFinalCallback = true then true
        else s.finalClickAttached) := by
  have hq_ne : s.spinQueue ≠ [] := by
    rw [hq]
    exact List.cons_ne_nil _ _
  have hall := settle_scheduleStops_all_rest cfg (startNextSpin cfg s)
  have hrun : runOneSpin cfg s =
      finalizeSpin cfg (settleReels (scheduleStops cfg (startNextSpin cfg s))) := by
    unfold runOneSpin
    rw [if_pos ⟨hb, hg, hq_ne⟩]
    unfold maybeFinalize
    rw [if_pos ⟨rfl, hall⟩]
  rw [hrun, startNextSpin_pop cfg s req remaining hg hq]
  refine ⟨rfl, rfl, rfl, ?_, ?_⟩
  · by_cases hr : remaining = [] <;>
      simp [finalizeSpin, settleReels, scheduleStops, hr, hb]
  · by_cases hr : remaining = [] <;> by_cases hf : cfg.hasFinalCallback = true <;>
      simp [finalizeSpin, settleReels, scheduleStops, hr, hb, hf]

/-- Draining the queue: `k` presses, each from a settled state, pop and
complete the `k` queued requests in order, appending their completion events
FIFO, then retire the spin trigger and arm the final click listener when a
`finalCallback` is configured. -/
lemma runSpins_drain (cfg : Config) :
    ∀ reqs : List SpinRequest, reqs ≠ [] → ∀ s : OrchState,
      s.currentGlobalState = Status.rest → s.spinQueue = reqs → s.buttonAttached = true →
      ((runOneSpin cfg)^[reqs.length] s).currentGlobalState = Status.rest ∧
      ((runOneSpin cfg)^[reqs.length] s).spinQueue = [] ∧
      ((runOneSpin cfg)^[reqs.length] s).firedEvents =
        s.firedEvents ++ reqs.map (fun r => SpinEvent.completed r.callbackId) ∧
      ((runOneSpin cfg)^[reqs.length] s).buttonAttached = false ∧
      ((runOneSpin cfg)^[reqs.length] s).finalClickAttached =
        (if cfg.hasFinalCallback = true then true else s.finalClickAttached) := by
  intro reqs
  induction reqs with
  | nil => intro h; exact absurd rfl h
  | cons req remaining ih =>
    intro _ s hg hq hb
    obtain ⟨hg1, hq1, he1, hb1, hf1⟩ := runOneSpin_step cfg s req remaining hg hq hb
    rcases eq_or_ne remaining [] with hr | hr
    · subst hr
      simp only [List.length_cons, List.length_nil, zero_add, Function.iterate_one]
      refine ⟨hg1, hq1, by simpa using he1, by simpa using hb1, ?_⟩
      rcases Bool.eq_false_or_eq_true cfg.hasFinalCallback with hf | hf <;>
        simp [hf] at hf1 ⊢ <;> simp [hf1]
    · have hb1t : (runOneSpin cfg s).buttonAttached = true := by
        rw [hb1, if_neg hr]
      have hf1e : (runOneSpin cfg s).finalClickAttached = s.finalClickAttached := by
        rw [hf1, if_neg (by simp [hr])]
      have hlen : (req :: remaining).length = remaining.length + 1 := rfl
      rw [hlen, Function.iterate_succ_apply]
      obtain ⟨ig, iq, ie, ib, ifc⟩ := ih hr (runOneSpin cfg s) hg1 hq1 hb1t
      refine ⟨ig, iq, ?_, ib, ?_⟩
      · rw [ie, he1, List.map_cons, List.append_assoc]
        rfl
      · rw [ifc, hf1e]

/-- Claim C5 (amended): with `k` queued requests and `k` presses each made
from a settled rest state, every request's completion callback fires exactly
once, in FIFO queue order; after the `k`-th spin settles the spin trigger is
retired and — with a `finalCallback` configured — the overall-completion
click listener is armed, but the overall-completion callback has not fired
at settle time; it fires exactly once upon the next button click. -/
theorem queue_drain_amended (cfg : Config) (reqs : List SpinRequest) (s : OrchState)
    (hne : reqs ≠ []) (hg : s.currentGlobalState = Status.rest)
    (hq : s.spinQueue = reqs) (hb : s.buttonAttached = true)
    (he0 : s.firedEvents = []) (hcb : cfg.hasFinalCallback = true) :
    ((runOneSpin cfg)^[reqs.length] s).firedEvents =
      reqs.map (fun r => SpinEvent.completed r.callbackId) ∧
    SpinEvent.finalFired ∉ ((runOneSpin cfg)^[reqs.length] s).firedEvents ∧
    ((runOneSpin cfg)^[reqs.length] s).buttonAttached = false ∧
    ((runOneSpin cfg)^[reqs.length] s).finalClickAttached = true ∧
    (clickButton ((runOneSpin cfg)^[reqs.length] s)).firedEvents =
      reqs.map (fun r => SpinEvent.completed r.callbackId) ++ [SpinEvent.finalFired] := by
  obtain ⟨hg1, hq1, he1, hb1, hf1⟩ := runSpins_drain cfg reqs hne s hg hq hb
  have hev : ((runOneSpin cfg)^[reqs.length] s).firedEvents =
      reqs.map (fun r => SpinEvent.completed r.callbackId) := by
    rw [he1, he0, List.nil_append]
  have hfc : ((runOneSpin cfg)^[reqs.length] s).finalClickAttached = true := by
    rw [hf1, if_pos hcb]
  refine ⟨hev, ?_, hb1, hfc, ?_⟩
  · rw [hev]
    simp [List.mem_map]
  · unfold clickButton
    rw [if_pos hfc, hev]

/-- A settled orchestrator state with two queued requests (callback ids 0
and 1), armed button, no final click listener, and an empty event log. -/
def drainState : OrchState :=
  ⟨Status.rest, [⟨0, 1, none, Status.rest⟩], [⟨[1, 2, 3], 0⟩, ⟨[2, 3, 4], 1⟩], none,
    [], [], true, false, []⟩

/-- Witness for C5's amended statement: draining the two queued requests of
`drainState` fires exactly their completion callbacks, in order. -/
theorem queue_drain_amended_witness :
    ((runOneSpin sampleConfig)^[([⟨[1, 2, 3], 0⟩, ⟨[2, 3, 4], 1⟩] :
        List SpinRequest).length] drainState).firedEvents =
      ([⟨[1, 2, 3], 0⟩, ⟨[2, 3, 4], 1⟩] : List SpinRequest).map
        (fun r => SpinEvent.completed r.callbackId) :=
  (queue_drain_amended sampleConfig _ drainState (List.cons_ne_nil _ _) rfl rfl rfl rfl
    rfl).1

/-- Counterexample to claim C5 as stated: after the second (last) spin of
`drainState` settles, the event log holds exactly the two completion events
and no overall-completion event — `finalizeSpin` only arms a click listener
for `finalCallback`; it does not fire it at settle time. -/
theorem final_callback_not_fired_at_settle :
    SpinEvent.finalFired ∉ ((runOneSpin sampleConfig)^[2] drainState).firedEvents := by
  have hlen : ([⟨[1, 2, 3], 0⟩, ⟨[2, 3, 4], 1⟩] : List SpinRequest).length = 2 := rfl
  have h := runSpins_drain sampleConfig [⟨[1, 2, 3], 0⟩, ⟨[2, 3, 4], 1⟩]
    (List.cons_ne_nil _ _) drainState rfl rfl rfl
  rw [← hlen, h.2.2.1]
  simp [drainState, List.mem_map]

end SlotReel
